import Mathlib

/-!
Shallow embedding of `ceilometer/publisher/messaging.py` (class
`MessagingPublisher` and its subclasses), together with proofs about the
queueing, policy and fan-out behaviour of the publisher.

Modelling conventions:
* A serialized sample record (the dict produced by
  `utils.meter_message_from_counter`) is modelled as a `Meter` carrying its
  `counter_name` (the category used for per-meter fan-out) and an opaque
  payload distinguisher.
* A queue entry `(context, topic, meters)` is modelled as a `Batch`.
* The abstract `_send` method is modelled as a `Sender` function returning
  the outcome of the send together with the list of batches that the send
  itself appended to `local_queue` (a Sender completion callback may invoke
  `publish_samples` re-entrantly; the appended batches model that).
* Python exceptions are modelled explicitly: `_process_queue` and `flush`
  return the error (if any) alongside the state they leave behind, exactly
  mirroring which assignments had executed when the exception escaped.
* Python's `sorted(..., key=itemgetter('counter_name'))` is a stable sort
  comparing strings lexicographically by code point; it is embedded as a
  stable insertion sort over the code-point lexicographic order `strLe`
  (Lean's built-in `String.lt` is not used because it does not reduce in
  the kernel).
-/

/-- A serialized sample record; `counter_name` is the meter name used as the
fan-out category, `payload` stands for the rest of the record. -/
structure Meter where
  counter_name : String
  payload : Nat
deriving DecidableEq

/-- One entry of `self.local_queue`: the tuple `(context, topic, meters)`. -/
structure Batch where
  context : Nat
  topic : String
  meters : List Meter
deriving DecidableEq

/-- Outcome of one `_send` call: normal return, an
`oslo.messaging.MessageDeliveryFailure`, or any other exception. -/
inductive SendOutcome where
  | success
  | deliveryFailure
  | fatal
deriving DecidableEq

/-- An exception escaping `_process_queue` / `flush`. -/
inductive PubError where
  | deliveryFailure
  | fatal
deriving DecidableEq

/-- The transport: for a batch it yields the outcome of `_send` and the list
of batches the send appended to `local_queue` (re-entrant publishes from the
Sender's completion path). -/
abbrev Sender := Batch → SendOutcome × List Batch

/-- State of a `MessagingPublisher` relevant to the claims. -/
structure Publisher where
  policy : String
  max_queue_length : Nat
  per_meter_topic : Bool
  retry : Option Nat
  local_queue : List Batch
deriving DecidableEq

/-- Embedding of `MessagingPublisher.__init__`: policy validation/coercion, retry choice,
empty queue.  The second component counts the `LOG.warn` diagnostics emitted
during construction (1 exactly when the policy string is unknown). -/
def mkPublisher (policyOpt : String) (maxQ : Nat) (pmt : Bool) : Publisher × Nat :=
  let known := policyOpt = "default" ∨ policyOpt = "queue" ∨ policyOpt = "drop"
  let policy := if known then policyOpt else "default"
  let warns := if known then 0 else 1
  ({ policy := policy
     max_queue_length := maxQ
     per_meter_topic := pmt
     retry := if policy = "queue" ∨ policy = "drop" then some 1 else none
     local_queue := [] }, warns)

/-- Code-point lexicographic comparison of character lists (the order Python
uses to compare the `counter_name` strings). -/
def charsLt : List Char → List Char → Bool
  | [], [] => false
  | [], _ :: _ => true
  | _ :: _, [] => false
  | a :: as, b :: bs => if a < b then true else if b < a then false else charsLt as bs

/-- Strict lexicographic order on strings. -/
def strLt (a b : String) : Bool := charsLt a.data b.data

/-- Reflexive lexicographic order on strings. -/
def strLe (a b : String) : Bool := !strLt b a

/-- Stable insertion of a meter into a name-sorted list: placed before the
first element whose name is not smaller. -/
def insertByName (m : Meter) : List Meter → List Meter
  | [] => [m]
  | x :: xs =>
    if strLe m.counter_name x.counter_name then m :: x :: xs
    else x :: insertByName m xs

/-- Stable sort of meters by `counter_name`: the embedding of
`sorted(meters, key=operator.itemgetter('counter_name'))`. -/
def sortByName : List Meter → List Meter
  | [] => []
  | m :: rest => insertByName m (sortByName rest)

/-- Embedding of `itertools.groupby(..., operator.itemgetter('counter_name'))`: maximal
runs of adjacent meters sharing a `counter_name`, with the run's key. -/
def groupbyName : List Meter → List (String × List Meter)
  | [] => []
  | m :: rest =>
    match groupbyName rest with
    | [] => [(m.counter_name, [m])]
    | (k, g) :: gs =>
      if m.counter_name = k then (k, m :: g) :: gs
      else (m.counter_name, [m]) :: (k, g) :: gs

/-- Collapse adjacent duplicates of a string list (the keys `groupby`
produces). -/
def dedupAdj : List String → List String
  | [] => []
  | a :: rest =>
    match dedupAdj rest with
    | [] => [a]
    | b :: bs => if a = b then b :: bs else a :: b :: bs

/-- The batches one `publish_samples(context, samples)` call appends to
`local_queue` before flushing: the base-topic batch with all meters, then —
only when `per_meter_topic` is set — one batch per `groupby` run of the
name-sorted meters, at topic `topic ++ "." ++ name`. -/
def builtBatches (pmt : Bool) (topic : String) (ctx : Nat) (samples : List Meter) :
    List Batch :=
  ⟨ctx, topic, samples⟩ ::
    (if pmt then
      (groupbyName (sortByName samples)).map
        (fun g => ⟨ctx, topic ++ "." ++ g.1, g.2⟩)
     else [])

/-- Result of `MessagingPublisher._process_queue`: the value it returned (the
batches to retain), the batches sent successfully (in send order), the
batches appended to `local_queue` by the sends themselves, and the exception
that escaped, if any (in which case `remaining` is meaningless and empty). -/
structure ProcOut where
  remaining : List Batch
  sent : List Batch
  arrivals : List Batch
  err : Option PubError
deriving DecidableEq

/-- Embedding of `MessagingPublisher._process_queue(queue, policy)`: send from the head;
pop on success; on `MessageDeliveryFailure` return the whole remaining queue
under `"queue"` policy, return `[]` under `"drop"` policy, and re-raise
otherwise; any other exception propagates. -/
def processQueue (send : Sender) (policy : String) : List Batch → ProcOut
  | [] => ⟨[], [], [], none⟩
  | b :: rest =>
    match (send b).1 with
    | SendOutcome.success =>
      let r := processQueue send policy rest
      ⟨r.remaining, b :: r.sent, (send b).2 ++ r.arrivals, r.err⟩
    | SendOutcome.deliveryFailure =>
      if policy = "queue" then ⟨b :: rest, [], (send b).2, none⟩
      else if policy = "drop" then ⟨[], [], (send b).2, none⟩
      else ⟨[], [], (send b).2, some PubError.deliveryFailure⟩
    | SendOutcome.fatal => ⟨[], [], (send b).2, some PubError.fatal⟩

/-- Embedding of `MessagingPublisher._check_queue_length`: when the queue exceeds a
positive `max_queue_length`, drop the oldest excess entries
(`self.local_queue[count:]`). -/
def checkQueueLength (maxLen : Nat) (q : List Batch) : List Batch :=
  if maxLen < q.length ∧ 0 < maxLen then q.drop (q.length - maxLen) else q

/-- Result of `MessagingPublisher.flush`: publisher state afterwards, batches
sent, and the exception that escaped, if any. -/
structure FlushOut where
  pub : Publisher
  sent : List Batch
  err : Option PubError
deriving DecidableEq

/-- Embedding of `MessagingPublisher.flush`: detach the queue, process it, then set
`local_queue` to the retained batches followed by the batches that arrived
during processing, and cap the length under the `"queue"` policy.  When
`_process_queue` raises, `local_queue` — emptied before processing — holds
only the arrivals, and the length check is skipped. -/
def flush (send : Sender) (p : Publisher) : FlushOut :=
  let r := processQueue send p.policy p.local_queue
  match r.err with
  | some e => ⟨{ p with local_queue := r.arrivals }, r.sent, some e⟩
  | none =>
    let q1 := r.remaining ++ r.arrivals
    let q2 := if p.policy = "queue" then checkQueueLength p.max_queue_length q1 else q1
    ⟨{ p with local_queue := q2 }, r.sent, none⟩

/-- Embedding of `MessagingPublisher.publish_samples`: append the built batches to
`local_queue`, then flush. -/
def publish_samples (send : Sender) (topic : String) (ctx : Nat) (samples : List Meter)
    (p : Publisher) : FlushOut :=
  flush send
    { p with local_queue :=
        p.local_queue ++ builtBatches p.per_meter_topic topic ctx samples }

/-- Fold a sequence of `publish_samples` calls (context/samples pairs) over a
publisher state. -/
def runPublishes (send : Sender) (topic : String) (p : Publisher)
    (jobs : List (Nat × List Meter)) : Publisher :=
  jobs.foldl (fun st j => (publish_samples send topic j.1 j.2 st).pub) p

/-- Concatenation, in order, of the batches the sends of the given list
appended to `local_queue`. -/
def arrivalsOf (send : Sender) : List Batch → List Batch
  | [] => []
  | b :: rest => (send b).2 ++ arrivalsOf send rest

/-- The meters of a given category, in their original relative order. -/
def catFilter (c : String) (l : List Meter) : List Meter :=
  l.filter (fun m => m.counter_name == c)

/-- The distinct categories present in a sample list, in ascending
lexicographic order — the keys of the groups built by `publish_samples`. -/
def categories (samples : List Meter) : List String :=
  dedupAdj ((sortByName samples).map (fun m => m.counter_name))

/-! ### Lexicographic order: basic facts -/

lemma charsLt_irrefl (x : List Char) : charsLt x x = false := by
  induction x with
  | nil => rfl
  | cons a as ih => simp [charsLt, lt_irrefl, ih]

lemma charsLt_asymm : ∀ {x y : List Char}, charsLt x y = true → charsLt y x = false
  | [], [], h => by simp [charsLt] at h
  | [], _ :: _, _ => rfl
  | _ :: _, [], h => by simp [charsLt] at h
  | a :: as, b :: bs, h => by
    by_cases hab : a < b
    · have hba : ¬ b < a := lt_asymm hab
      simp [charsLt, hba, hab]
    · by_cases hba : b < a
      · simp [charsLt, hab, hba] at h
      · have : charsLt as bs = true := by simpa [charsLt, hab, hba] using h
        simpa [charsLt, hab, hba] using charsLt_asymm this

lemma charsLt_eq_of_not_lt : ∀ {x y : List Char},
    charsLt x y = false → charsLt y x = false → x = y
  | [], [], _, _ => rfl
  | [], _ :: _, h, _ => by simp [charsLt] at h
  | _ :: _, [], _, h => by simp [charsLt] at h
  | a :: as, b :: bs, h1, h2 => by
    by_cases hab : a < b
    · simp [charsLt, hab] at h1
    · by_cases hba : b < a
      · simp [charsLt, hba, lt_asymm hba] at h2
      · have hab' : a = b := le_antisymm (not_lt.mp hba) (not_lt.mp hab)
        have t1 : charsLt as bs = false := by simpa [charsLt, hab, hba] using h1
        have t2 : charsLt bs as = false := by
          simpa [charsLt, hab, hba, hab'] using h2
        rw [hab', charsLt_eq_of_not_lt t1 t2]

lemma charsLt_trans : ∀ {x y z : List Char},
    charsLt x y = true → charsLt y z = true → charsLt x z = true
  | [], [], _, h1, _ => by simp [charsLt] at h1
  | [], _ :: _, [], _, h2 => by simp [charsLt] at h2
  | [], _ :: _, _ :: _, _, _ => rfl
  | _ :: _, [], _, h1, _ => by simp [charsLt] at h1
  | _ :: _, _ :: _, [], _, h2 => by simp [charsLt] at h2
  | a :: as, b :: bs, c :: cs, h1, h2 => by
    by_cases hab : a < b
    · by_cases hbc : b < c
      · simp [charsLt, lt_trans hab hbc]
      · by_cases hcb : c < b
        · simp [charsLt, hbc, hcb] at h2
        · have hbc' : b = c := le_antisymm (not_lt.mp hcb) (not_lt.mp hbc)
          simp [charsLt, hbc' ▸ hab]
    · by_cases hba : b < a
      · simp [charsLt, hab, hba] at h1
      · have hab' : a = b := le_antisymm (not_lt.mp hba) (not_lt.mp hab)
        by_cases hbc : b < c
        · simp [charsLt, hab' ▸ hbc]
        · by_cases hcb : c < b
          · simp [charsLt, hbc, hcb] at h2
          · have hbc' : b = c := le_antisymm (not_lt.mp hcb) (not_lt.mp hbc)
            have t1 : charsLt as bs = true := by simpa [charsLt, hab, hba] using h1
            have t2 : charsLt bs cs = true := by simpa [charsLt, hbc, hcb] using h2
            subst hab'
            subst hbc'
            simp [charsLt, hab, hba, charsLt_trans t1 t2]

lemma strDataInj {a b : String} (h : a.data = b.data) : a = b := by
  cases a
  cases b
  exact congrArg String.mk h

/-- Strict order on strings as a proposition. -/
def sLt (a b : String) : Prop := strLt a b = true

/-- Weak order on strings as a proposition. -/
def sLe (a b : String) : Prop := strLe a b = true

instance (a b : String) : Decidable (sLt a b) := by unfold sLt; infer_instance

instance (a b : String) : Decidable (sLe a b) := by unfold sLe; infer_instance

lemma strLt_irrefl (a : String) : strLt a a = false := charsLt_irrefl a.data

lemma strLt_asymm {a b : String} (h : strLt a b = true) : strLt b a = false :=
  charsLt_asymm h

lemma strLt_trans {a b c : String} (h1 : strLt a b = true) (h2 : strLt b c = true) :
    strLt a c = true := charsLt_trans h1 h2

lemma str_eq_of_not_lt {a b : String} (h1 : strLt a b = false) (h2 : strLt b a = false) :
    a = b := strDataInj (charsLt_eq_of_not_lt h1 h2)

lemma sLe_def {a b : String} : sLe a b ↔ strLt b a = false := by
  simp [sLe, strLe]

lemma sLe_total (a b : String) : sLe a b ∨ sLe b a := by
  rw [sLe_def, sLe_def]
  cases h : strLt b a
  · exact Or.inl rfl
  · exact Or.inr (strLt_asymm h)

lemma sLe_of_not_sLe {a b : String} (h : ¬ sLe a b) : sLe b a :=
  (sLe_total a b).resolve_left h

lemma sLt_of_sLe_of_ne {a b : String} (h : sLe a b) (hne : a ≠ b) : sLt a b := by
  rw [sLe_def] at h
  cases h' : strLt a b
  · exact absurd (str_eq_of_not_lt h' h) hne
  · exact h'

lemma sLe_trans {a b c : String} (h1 : sLe a b) (h2 : sLe b c) : sLe a c := by
  rw [sLe_def] at h1 h2 ⊢
  cases h : strLt c a
  · rfl
  · cases hbc : strLt b c with
    | true =>
      have := strLt_trans hbc h
      rw [this] at h1
      exact h1
    | false =>
      have hbc' : b = c := str_eq_of_not_lt hbc h2
      rw [hbc'] at h1
      rw [h] at h1
      exact h1

lemma sLt_trans {a b c : String} (h1 : sLt a b) (h2 : sLt b c) : sLt a c :=
  strLt_trans h1 h2

lemma sLe_of_sLt {a b : String} (h : sLt a b) : sLe a b := by
  rw [sLe_def]
  exact strLt_asymm h

lemma sLt_ne {a b : String} (h : sLt a b) : a ≠ b := by
  intro he
  subst he
  simp [sLt, strLt_irrefl] at h

/-! ### Stable sort by counter_name -/

/-- Name order on meters. -/
def nameLe (x y : Meter) : Prop := sLe x.counter_name y.counter_name

lemma insertByName_perm (m : Meter) (l : List Meter) :
    List.Perm (insertByName m l) (m :: l) := by
  induction l with
  | nil => exact List.Perm.refl _
  | cons x xs ih =>
    by_cases h : strLe m.counter_name x.counter_name = true
    · simp only [insertByName, h, if_true]
      exact List.Perm.refl _
    · have h0 : strLe m.counter_name x.counter_name = false := by simpa using h
      simp only [insertByName, h0, Bool.false_eq_true, if_false]
      exact (ih.cons x).trans (List.Perm.swap m x xs)

lemma sortByName_perm (l : List Meter) : List.Perm (sortByName l) l := by
  induction l with
  | nil => exact List.Perm.refl _
  | cons m rest ih =>
    exact (insertByName_perm m (sortByName rest)).trans (ih.cons m)

lemma insertByName_sorted (m : Meter) {l : List Meter}
    (h : List.Sorted nameLe l) : List.Sorted nameLe (insertByName m l) := by
  induction l with
  | nil => simp [insertByName, List.sorted_singleton]
  | cons x xs ih =>
    rw [List.sorted_cons] at h
    obtain ⟨hx, hxs⟩ := h
    by_cases hle : strLe m.counter_name x.counter_name = true
    · simp only [insertByName, hle, if_true]
      rw [List.sorted_cons]
      refine ⟨?_, List.sorted_cons.mpr ⟨hx, hxs⟩⟩
      intro y hy
      rcases List.mem_cons.mp hy with rfl | hy'
      · exact hle
      · exact sLe_trans hle (hx y hy')
    · have hle0 : strLe m.counter_name x.counter_name = false := by simpa using hle
      simp only [insertByName, hle0, Bool.false_eq_true, if_false]
      rw [List.sorted_cons]
      refine ⟨?_, ih hxs⟩
      intro y hy
      have hy' := (insertByName_perm m xs).mem_iff.mp hy
      rcases List.mem_cons.mp hy' with rfl | hy''
      · exact sLe_of_not_sLe hle
      · exact hx y hy''

lemma sortByName_sorted (l : List Meter) : List.Sorted nameLe (sortByName l) := by
  induction l with
  | nil => simp [sortByName]
  | cons m rest ih => exact insertByName_sorted m ih

lemma filter_insertByName (c : String) (m : Meter) (l : List Meter) :
    (insertByName m l).filter (fun x => x.counter_name == c) =
      if m.counter_name = c
      then m :: l.filter (fun x => x.counter_name == c)
      else l.filter (fun x => x.counter_name == c) := by
  induction l with
  | nil =>
    by_cases hc : m.counter_name = c <;> simp [insertByName, List.filter_cons, hc]
  | cons x xs ih =>
    by_cases hle : strLe m.counter_name x.counter_name = true
    · simp only [insertByName, hle, if_true]
      by_cases hc : m.counter_name = c
      · simp [List.filter_cons, hc]
      · simp [List.filter_cons, hc]
    · have hle0 : strLe m.counter_name x.counter_name = false := by simpa using hle
      have hlt : strLt x.counter_name m.counter_name = true := by
        simpa [strLe] using hle0
      simp only [insertByName, hle0, Bool.false_eq_true, if_false]
      by_cases hc : m.counter_name = c
      · have hxc : (x.counter_name == c) = false := by
          rw [beq_eq_false_iff_ne]
          intro hx
          rw [hx, ← hc] at hlt
          rw [strLt_irrefl] at hlt
          exact Bool.false_ne_true hlt
        simp [List.filter_cons, hxc, ih, hc]
      · simp [List.filter_cons, ih, hc]

lemma filter_sortByName (c : String) (l : List Meter) :
    (sortByName l).filter (fun x => x.counter_name == c) =
      l.filter (fun x => x.counter_name == c) := by
  induction l with
  | nil => rfl
  | cons m rest ih =>
    by_cases hc : m.counter_name = c <;>
      simp [sortByName, filter_insertByName, hc, ih, List.filter_cons]

/-! ### Adjacent deduplication and grouping -/

lemma sLe_antisymm {a b : String} (h1 : sLe a b) (h2 : sLe b a) : a = b := by
  rw [sLe_def] at h1 h2
  exact str_eq_of_not_lt h2 h1

lemma dedupAdj_cons_ex (a : String) (rest : List String) :
    ∃ t, dedupAdj (a :: rest) = a :: t := by
  simp only [dedupAdj]
  cases h : dedupAdj rest with
  | nil => exact ⟨[], rfl⟩
  | cons b bs =>
    by_cases hab : a = b
    · subst hab
      exact ⟨bs, by simp⟩
    · exact ⟨b :: bs, by simp [hab]⟩

lemma dedupAdj_pair (a b : String) (rest : List String) :
    dedupAdj (a :: b :: rest) =
      if a = b then dedupAdj (b :: rest) else a :: dedupAdj (b :: rest) := by
  simp only [dedupAdj]
  cases h : dedupAdj rest with
  | nil => by_cases hab : a = b <;> simp [hab]
  | cons c cs =>
    by_cases hbc : b = c
    · by_cases hab : a = b <;> simp [hab, hbc]
    · by_cases hab : a = b <;> simp [hab, hbc]

lemma dedupAdj_mem : ∀ (l : List String) (x : String), x ∈ dedupAdj l ↔ x ∈ l
  | [], x => by simp [dedupAdj]
  | [a], x => by simp [dedupAdj]
  | a :: b :: rest, x => by
    rw [dedupAdj_pair]
    by_cases hab : a = b
    · rw [if_pos hab]
      rw [dedupAdj_mem (b :: rest) x]
      subst hab
      simp only [List.mem_cons]
      tauto
    · rw [if_neg hab]
      simp only [List.mem_cons, dedupAdj_mem (b :: rest) x]

lemma dedupAdj_sorted : ∀ {l : List String},
    List.Sorted sLe l → List.Sorted sLt (dedupAdj l)
  | [], _ => by simp [dedupAdj]
  | [a], _ => by simp [dedupAdj, List.sorted_singleton]
  | a :: b :: rest, h => by
    rw [List.sorted_cons] at h
    obtain ⟨ha, h2⟩ := h
    have ih := dedupAdj_sorted h2
    rw [dedupAdj_pair]
    by_cases hab : a = b
    · rw [if_pos hab]
      exact ih
    · rw [if_neg hab]
      rw [List.sorted_cons]
      refine ⟨?_, ih⟩
      intro y hy
      have hy' : y ∈ b :: rest := (dedupAdj_mem _ y).mp hy
      have hay : sLe a y := ha y hy'
      refine sLt_of_sLe_of_ne hay ?_
      intro hae
      subst hae
      rcases List.mem_cons.mp hy' with h' | h'
      · exact hab h'
      · rw [List.sorted_cons] at h2
        exact hab (sLe_antisymm (ha b (List.mem_cons_self b rest)) (h2.1 a h'))

lemma dedupAdj_nodup {l : List String} (h : List.Sorted sLe l) :
    (dedupAdj l).Nodup :=
  (dedupAdj_sorted h).imp (fun hlt => sLt_ne hlt)

/-- The groups of a name-sorted meter list, described non-recursively: one
group per distinct name, holding the meters of that name in order. -/
def groupsSpec (l : List Meter) : List (String × List Meter) :=
  (dedupAdj (l.map (fun m => m.counter_name))).map
    (fun k => (k, l.filter (fun x => x.counter_name == k)))

lemma groupbyName_cons_ex (m : Meter) (rest : List Meter) :
    ∃ g gs, groupbyName (m :: rest) = (m.counter_name, g) :: gs := by
  simp only [groupbyName]
  cases h : groupbyName rest with
  | nil => exact ⟨[m], [], rfl⟩
  | cons p gs =>
    by_cases hk : m.counter_name = p.1
    · exact ⟨m :: p.2, gs, by simp [hk]⟩
    · exact ⟨[m], p :: gs, by simp [hk]⟩

lemma groupbyName_pair (m r : Meter) (rest : List Meter) (g : List Meter)
    (gs : List (String × List Meter))
    (h : groupbyName (r :: rest) = (r.counter_name, g) :: gs) :
    groupbyName (m :: r :: rest) =
      if m.counter_name = r.counter_name
      then (r.counter_name, m :: g) :: gs
      else (m.counter_name, [m]) :: (r.counter_name, g) :: gs := by
  conv_lhs => rw [groupbyName]
  rw [h]

lemma sLt_of_sLt_of_sLe {a b c : String} (h1 : sLt a b) (h2 : sLe b c) : sLt a c := by
  by_cases he : b = c
  · subst he
    exact h1
  · exact sLt_trans h1 (sLt_of_sLe_of_ne h2 he)

lemma groupbyName_sorted_eq : ∀ {l : List Meter},
    List.Sorted sLe (l.map (fun m => m.counter_name)) →
    groupbyName l = groupsSpec l
  | [], _ => rfl
  | [m], _ => by simp [groupbyName, groupsSpec, dedupAdj, List.filter]
  | m :: r :: rest, h => by
    have h2 : List.Sorted sLe ((r :: rest).map (fun x => x.counter_name)) := by
      rw [List.map_cons, List.sorted_cons] at h
      exact h.2
    have hmr : sLe m.counter_name r.counter_name := by
      rw [List.map_cons, List.sorted_cons] at h
      exact h.1 r.counter_name (by simp)
    have ih := groupbyName_sorted_eq h2
    obtain ⟨t, ht⟩ :=
      dedupAdj_cons_ex r.counter_name (rest.map (fun x => x.counter_name))
    have hdd : dedupAdj ((r :: rest).map (fun x => x.counter_name)) =
        r.counter_name :: t := by
      rw [List.map_cons]
      exact ht
    have hstrict : List.Sorted sLt (r.counter_name :: t) := by
      rw [← hdd]
      exact dedupAdj_sorted h2
    have ht_gt : ∀ k ∈ t, sLt r.counter_name k := List.rel_of_sorted_cons hstrict
    have hspec : groupsSpec (r :: rest) =
        (r.counter_name,
          (r :: rest).filter (fun x => x.counter_name == r.counter_name))
          :: t.map (fun k => (k, (r :: rest).filter (fun x => x.counter_name == k))) := by
      rw [groupsSpec, hdd, List.map_cons]
    by_cases hmr_eq : m.counter_name = r.counter_name
    · rw [groupbyName_pair m r rest _ _ (ih.trans hspec), if_pos hmr_eq]
      have hdd2 : dedupAdj ((m :: r :: rest).map (fun x => x.counter_name)) =
          r.counter_name :: t := by
        rw [List.map_cons, List.map_cons, dedupAdj_pair, if_pos hmr_eq]
        exact ht
      rw [groupsSpec, hdd2, List.map_cons]
      congr 1
      · have hb : (m.counter_name == r.counter_name) = true := by simp [hmr_eq]
        simp [List.filter_cons, hb]
      · refine (List.map_congr_left ?_).symm
        intro k hk
        have hne : (m.counter_name == k) = false := by
          rw [beq_eq_false_iff_ne, hmr_eq]
          exact sLt_ne (ht_gt k hk)
        simp [List.filter_cons, hne]
    · have hlt : sLt m.counter_name r.counter_name := sLt_of_sLe_of_ne hmr hmr_eq
      have hgt : ∀ k ∈ r.counter_name :: t, sLt m.counter_name k := by
        intro k hk
        rcases List.mem_cons.mp hk with rfl | hk'
        · exact hlt
        · exact sLt_trans hlt (ht_gt k hk')
      rw [groupbyName_pair m r rest _ _ (ih.trans hspec), if_neg hmr_eq]
      have hdd2 : dedupAdj ((m :: r :: rest).map (fun x => x.counter_name)) =
          m.counter_name :: r.counter_name :: t := by
        rw [List.map_cons, List.map_cons, dedupAdj_pair, if_neg hmr_eq, ht]
      rw [groupsSpec, hdd2, List.map_cons, List.map_cons]
      congr 1
      · have hm_self : (m.counter_name == m.counter_name) = true := by simp
        have hrest_nil :
            (r :: rest).filter (fun x => x.counter_name == m.counter_name) = [] := by
          rw [List.filter_eq_nil_iff]
          intro x hx
          have hmx : sLt m.counter_name x.counter_name := by
            rcases List.mem_cons.mp hx with rfl | hx'
            · exact hlt
            · rw [List.map_cons, List.sorted_cons] at h2
              exact sLt_of_sLt_of_sLe hlt
                (h2.1 x.counter_name
                  (List.mem_map_of_mem (fun y => y.counter_name) hx'))
          simp [Ne.symm (sLt_ne hmx)]
        simp [List.filter_cons, hm_self, hrest_nil]
      · congr 1
        · have hb : (m.counter_name == r.counter_name) = false := by
            simp [hmr_eq]
          simp [List.filter_cons, hb]
        · refine (List.map_congr_left ?_).symm
          intro k hk
          have hne : (m.counter_name == k) = false := by
            rw [beq_eq_false_iff_ne]
            exact sLt_ne (hgt k (List.mem_cons_of_mem _ hk))
          simp [List.filter_cons, hne]

lemma sortByName_names_sorted (l : List Meter) :
    List.Sorted sLe ((sortByName l).map (fun m => m.counter_name)) := by
  have h := sortByName_sorted l
  unfold List.Sorted at h ⊢
  rw [List.pairwise_map]
  exact h

lemma categories_nodup (samples : List Meter) : (categories samples).Nodup :=
  dedupAdj_nodup (sortByName_names_sorted samples)

lemma categories_sorted (samples : List Meter) :
    List.Sorted sLt (categories samples) :=
  dedupAdj_sorted (sortByName_names_sorted samples)

lemma categories_mem (samples : List Meter) (c : String) :
    c ∈ categories samples ↔ c ∈ samples.map (fun m => m.counter_name) := by
  rw [categories, dedupAdj_mem]
  exact ((sortByName_perm samples).map (fun m => m.counter_name)).mem_iff

lemma builtBatches_true_eq (topic : String) (ctx : Nat) (samples : List Meter) :
    builtBatches true topic ctx samples =
      ⟨ctx, topic, samples⟩ ::
        (categories samples).map
          (fun c => ⟨ctx, topic ++ "." ++ c, catFilter c samples⟩) := by
  rw [builtBatches, if_pos rfl]
  rw [groupbyName_sorted_eq (sortByName_names_sorted samples)]
  rw [groupsSpec, List.map_map]
  congr 1
  refine List.map_congr_left ?_
  intro k _
  simp only [Function.comp_apply]
  rw [catFilter, filter_sortByName]

lemma builtBatches_false_eq (topic : String) (ctx : Nat) (samples : List Meter) :
    builtBatches false topic ctx samples = [⟨ctx, topic, samples⟩] := rfl

/-! ### Queue processing lemmas -/

lemma arrivalsOf_append (send : Sender) (l1 l2 : List Batch) :
    arrivalsOf send (l1 ++ l2) = arrivalsOf send l1 ++ arrivalsOf send l2 := by
  induction l1 with
  | nil => simp [arrivalsOf]
  | cons x xs ih => simp [arrivalsOf, ih]

lemma processQueue_nil (send : Sender) (pol : String) :
    processQueue send pol [] = ⟨[], [], [], none⟩ := rfl

lemma processQueue_cons_success {send : Sender} {b : Batch} (pol : String)
    (rest : List Batch) (h : (send b).1 = SendOutcome.success) :
    processQueue send pol (b :: rest) =
      ⟨(processQueue send pol rest).remaining,
       b :: (processQueue send pol rest).sent,
       (send b).2 ++ (processQueue send pol rest).arrivals,
       (processQueue send pol rest).err⟩ := by
  rw [processQueue, h]

lemma processQueue_cons_deliveryFailure {send : Sender} {b : Batch} (pol : String)
    (rest : List Batch) (h : (send b).1 = SendOutcome.deliveryFailure) :
    processQueue send pol (b :: rest) =
      if pol = "queue" then ⟨b :: rest, [], (send b).2, none⟩
      else if pol = "drop" then ⟨[], [], (send b).2, none⟩
      else ⟨[], [], (send b).2, some PubError.deliveryFailure⟩ := by
  rw [processQueue, h]

lemma processQueue_cons_fatal {send : Sender} {b : Batch} (pol : String)
    (rest : List Batch) (h : (send b).1 = SendOutcome.fatal) :
    processQueue send pol (b :: rest) = ⟨[], [], (send b).2, some PubError.fatal⟩ := by
  rw [processQueue, h]

lemma processQueue_append_ok (send : Sender) (pol : String) :
    ∀ (pre rest : List Batch), (∀ x ∈ pre, (send x).1 = SendOutcome.success) →
    processQueue send pol (pre ++ rest) =
      ⟨(processQueue send pol rest).remaining,
       pre ++ (processQueue send pol rest).sent,
       arrivalsOf send pre ++ (processQueue send pol rest).arrivals,
       (processQueue send pol rest).err⟩
  | [], rest, _ => by simp [arrivalsOf]
  | x :: pre', rest, h => by
    have hx : (send x).1 = SendOutcome.success := h x (List.mem_cons_self x pre')
    have ih := processQueue_append_ok send pol pre' rest
      (fun y hy => h y (List.mem_cons_of_mem x hy))
    rw [List.cons_append, processQueue_cons_success pol (pre' ++ rest) hx, ih]
    simp [arrivalsOf]

lemma processQueue_all_ok {send : Sender} (pol : String) {q : List Batch}
    (h : ∀ x ∈ q, (send x).1 = SendOutcome.success) :
    processQueue send pol q = ⟨[], q, arrivalsOf send q, none⟩ := by
  have := processQueue_append_ok send pol q [] h
  simpa [processQueue_nil] using this

lemma processQueue_sent_isPrefix (send : Sender) (pol : String) :
    ∀ q : List Batch, (processQueue send pol q).sent <+: q := by
  intro q
  induction q with
  | nil => simp [processQueue_nil]
  | cons b rest ih =>
    cases h : (send b).1 with
    | success =>
      rw [processQueue_cons_success pol rest h]
      obtain ⟨t, ht⟩ := ih
      exact ⟨t, by simp [ht]⟩
    | deliveryFailure =>
      rw [processQueue_cons_deliveryFailure pol rest h]
      by_cases h1 : pol = "queue"
      · rw [if_pos h1]
        exact ⟨b :: rest, rfl⟩
      · rw [if_neg h1]
        by_cases h2 : pol = "drop"
        · rw [if_pos h2]
          exact ⟨b :: rest, rfl⟩
        · rw [if_neg h2]
          exact ⟨b :: rest, rfl⟩
    | fatal =>
      rw [processQueue_cons_fatal pol rest h]
      exact ⟨b :: rest, rfl⟩

lemma checkQueueLength_length_le {maxLen : Nat} (q : List Batch) (h : 0 < maxLen) :
    (checkQueueLength maxLen q).length ≤ maxLen := by
  rw [checkQueueLength]
  split
  · rename_i hcond
    rw [List.length_drop]
    omega
  · rename_i hcond
    rw [not_and_or] at hcond
    rcases hcond with h1 | h2
    · omega
    · omega

lemma checkQueueLength_noop {maxLen : Nat} {q : List Batch}
    (h : maxLen = 0 ∨ q.length ≤ maxLen) : checkQueueLength maxLen q = q := by
  rw [checkQueueLength, if_neg]
  rcases h with h | h <;> omega

lemma flush_eq_of_err {send : Sender} {p : Publisher} {e : PubError}
    (h : (processQueue send p.policy p.local_queue).err = some e) :
    flush send p =
      ⟨{ p with local_queue := (processQueue send p.policy p.local_queue).arrivals },
       (processQueue send p.policy p.local_queue).sent, some e⟩ := by
  rw [flush]
  simp only [h]

lemma flush_eq_of_ok {send : Sender} {p : Publisher}
    (h : (processQueue send p.policy p.local_queue).err = none) :
    flush send p =
      ⟨{ p with local_queue :=
           (if p.policy = "queue"
            then checkQueueLength p.max_queue_length
              ((processQueue send p.policy p.local_queue).remaining ++
               (processQueue send p.policy p.local_queue).arrivals)
            else (processQueue send p.policy p.local_queue).remaining ++
                 (processQueue send p.policy p.local_queue).arrivals) },
       (processQueue send p.policy p.local_queue).sent, none⟩ := by
  rw [flush]
  simp only [h]

lemma arrivalsOf_eq_nil {send : Sender} (h : ∀ x, (send x).2 = []) :
    ∀ l : List Batch, arrivalsOf send l = []
  | [] => rfl
  | b :: rest => by simp [arrivalsOf, h b, arrivalsOf_eq_nil h rest]

lemma processQueue_all_fail_queue {send : Sender}
    (h : ∀ b, send b = (SendOutcome.deliveryFailure, [])) (q : List Batch) :
    processQueue send "queue" q = ⟨q, [], [], none⟩ := by
  cases q with
  | nil => rfl
  | cons b rest =>
    have h1 : (send b).1 = SendOutcome.deliveryFailure := by rw [h b]
    rw [processQueue_cons_deliveryFailure _ rest h1, if_pos rfl, h b]

lemma flush_on_empty_queue (send : Sender) (p : Publisher)
    (h : p.local_queue = []) :
    (flush send p).sent = [] ∧ (flush send p).pub.local_queue = [] ∧
    (flush send p).err = none := by
  have hproc : processQueue send p.policy p.local_queue = ⟨[], [], [], none⟩ := by
    rw [h, processQueue_nil]
  rw [flush_eq_of_ok (by rw [hproc])]
  refine ⟨by rw [hproc], ?_, rfl⟩
  simp only [hproc, List.append_nil]
  split
  · exact checkQueueLength_noop (Or.inr (by simp))
  · rfl

lemma flush_preserves_config (send : Sender) (p : Publisher) :
    (flush send p).pub.policy = p.policy ∧
    (flush send p).pub.max_queue_length = p.max_queue_length ∧
    (flush send p).pub.per_meter_topic = p.per_meter_topic ∧
    (flush send p).pub.retry = p.retry := by
  rw [flush]
  cases herr : (processQueue send p.policy p.local_queue).err <;>
    exact ⟨rfl, rfl, rfl, rfl⟩

lemma processQueue_shape (send : Sender) (pol : String) :
    ∀ q : List Batch,
      ∃ A, A <+: q ∧
        (processQueue send pol q).arrivals = arrivalsOf send A ∧
        (processQueue send pol q).remaining <:+ q := by
  intro q
  induction q with
  | nil => exact ⟨[], ⟨[], rfl⟩, rfl, List.suffix_refl _⟩
  | cons b rest ih =>
    cases h : (send b).1 with
    | success =>
      obtain ⟨A, hA, harr, hrem⟩ := ih
      refine ⟨b :: A, ?_, ?_, ?_⟩
      · obtain ⟨t, ht⟩ := hA
        exact ⟨t, by simp [ht]⟩
      · rw [processQueue_cons_success pol rest h]
        simp [arrivalsOf, harr]
      · rw [processQueue_cons_success pol rest h]
        exact hrem.trans (List.suffix_cons b rest)
    | deliveryFailure =>
      rw [processQueue_cons_deliveryFailure pol rest h]
      by_cases h1 : pol = "queue"
      · refine ⟨[b], ⟨rest, rfl⟩, ?_, ?_⟩ <;> simp [h1, arrivalsOf, List.suffix_refl]
      · by_cases h2 : pol = "drop" <;>
          refine ⟨[b], ⟨rest, rfl⟩, ?_, ?_⟩ <;>
            simp [h1, h2, arrivalsOf, List.nil_suffix]
    | fatal =>
      rw [processQueue_cons_fatal pol rest h]
      refine ⟨[b], ⟨rest, rfl⟩, ?_, ?_⟩ <;> simp [arrivalsOf, List.nil_suffix]

lemma runPublishes_nil (send : Sender) (topic : String) (p : Publisher) :
    runPublishes send topic p [] = p := rfl

lemma runPublishes_cons (send : Sender) (topic : String) (p : Publisher)
    (j : Nat × List Meter) (jobs : List (Nat × List Meter)) :
    runPublishes send topic p (j :: jobs) =
      runPublishes send topic (publish_samples send topic j.1 j.2 p).pub jobs := rfl

lemma runPublishes_fail_invariant (topic : String) (sendF : Sender)
    (hF : ∀ b, sendF b = (SendOutcome.deliveryFailure, [])) :
    ∀ (jobs : List (Nat × List Meter)) (p : Publisher),
    p.policy = "queue" →
    p.per_meter_topic = false →
    (p.max_queue_length = 0 ∨
      p.local_queue.length + jobs.length ≤ p.max_queue_length) →
    runPublishes sendF topic p jobs =
      { p with local_queue :=
          p.local_queue ++ jobs.map (fun j => ⟨j.1, topic, j.2⟩) }
  | [], p, hpol, hpmt, hlen => by
    simp [runPublishes_nil]
  | j :: jobs', p, hpol, hpmt, hlen => by
    rw [runPublishes_cons]
    set bj : Batch := ⟨j.1, topic, j.2⟩ with hbj
    have hpub : (publish_samples sendF topic j.1 j.2 p).pub =
        { p with local_queue := p.local_queue ++ [bj] } := by
      rw [publish_samples, hpmt, builtBatches_false_eq]
      set p' : Publisher := { p with local_queue := p.local_queue ++ [bj] } with hp'
      have hproc : processQueue sendF p'.policy p'.local_queue =
          ⟨p'.local_queue, [], [], none⟩ := by
        have : p'.policy = "queue" := hpol
        rw [this, processQueue_all_fail_queue hF]
      rw [flush_eq_of_ok (by rw [hproc])]
      simp only [hproc, List.append_nil]
      have hpol' : p'.policy = "queue" := hpol
      rw [if_pos hpol']
      have hnoop : checkQueueLength p'.max_queue_length p'.local_queue =
          p'.local_queue := by
        refine checkQueueLength_noop ?_
        rcases hlen with h0 | hle
        · exact Or.inl h0
        · refine Or.inr ?_
          have h1 : p'.local_queue.length = p.local_queue.length + 1 := by
            rw [hp']
            simp
          have h2 : p'.max_queue_length = p.max_queue_length := rfl
          have h3 : (j :: jobs').length = jobs'.length + 1 := rfl
          rw [h3] at hle
          omega
      rw [hnoop]
    rw [hpub]
    have ih := runPublishes_fail_invariant topic sendF hF jobs'
      { p with local_queue := p.local_queue ++ [bj] }
      hpol hpmt
      (by
        rcases hlen with h0 | hle
        · exact Or.inl h0
        · refine Or.inr ?_
          have h1 : ({ p with local_queue := p.local_queue ++ [bj] } :
              Publisher).local_queue = p.local_queue ++ [bj] := rfl
          have h2 : ({ p with local_queue := p.local_queue ++ [bj] } :
              Publisher).max_queue_length = p.max_queue_length := rfl
          have h3 : (j :: jobs').length = jobs'.length + 1 := rfl
          rw [h1, h2]
          rw [h3] at hle
          simp only [List.length_append, List.length_singleton]
          omega)
    rw [ih]
    simp [hbj]

lemma processQueue_first_fail {send : Sender} (pol : String) {pre : List Batch}
    {b : Batch} (post : List Batch)
    (hpre : ∀ x ∈ pre, (send x).1 = SendOutcome.success)
    (hb : (send b).1 = SendOutcome.deliveryFailure) :
    processQueue send pol (pre ++ b :: post) =
      ⟨(if pol = "queue" then b :: post else []),
       pre,
       arrivalsOf send (pre ++ [b]),
       (if pol = "queue" ∨ pol = "drop" then none
        else some PubError.deliveryFailure)⟩ := by
  rw [processQueue_append_ok send pol pre (b :: post) hpre,
      processQueue_cons_deliveryFailure pol post hb]
  by_cases h1 : pol = "queue"
  · simp [h1, arrivalsOf_append, arrivalsOf]
  · by_cases h2 : pol = "drop" <;> simp [h1, h2, arrivalsOf_append, arrivalsOf]

lemma processQueue_first_fatal {send : Sender} (pol : String) {pre : List Batch}
    {b : Batch} (post : List Batch)
    (hpre : ∀ x ∈ pre, (send x).1 = SendOutcome.success)
    (hb : (send b).1 = SendOutcome.fatal) :
    processQueue send pol (pre ++ b :: post) =
      ⟨[], pre, arrivalsOf send (pre ++ [b]), some PubError.fatal⟩ := by
  rw [processQueue_append_ok send pol pre (b :: post) hpre,
      processQueue_cons_fatal pol post hb]
  simp [arrivalsOf_append, arrivalsOf]

/-! ### Concrete fixtures for witnesses and counterexamples -/

/-- A cpu meter record. -/
def mCpu : Meter := ⟨"cpu", 0⟩

/-- A disk meter record. -/
def mDisk : Meter := ⟨"disk", 1⟩

/-- First working-set batch. -/
def wB1 : Batch := ⟨1, "metering", [mCpu]⟩

/-- Second working-set batch. -/
def wB2 : Batch := ⟨2, "metering", [mDisk]⟩

/-- First batch enqueued by a re-entrant publish_samples during a flush. -/
def wA1 : Batch := ⟨3, "metering", [mCpu]⟩

/-- Second batch enqueued by a re-entrant publish_samples during a flush. -/
def wA2 : Batch := ⟨4, "metering", [mDisk]⟩

/-- Sender that accepts `wB1` and raises `MessageDeliveryFailure` on
everything else. -/
def sendOkThenFail : Sender := fun b =>
  if b = wB1 then (SendOutcome.success, []) else (SendOutcome.deliveryFailure, [])

/-- Sender that accepts `wB1` and raises a non-delivery exception on
everything else. -/
def sendOkThenFatal : Sender := fun b =>
  if b = wB1 then (SendOutcome.success, []) else (SendOutcome.fatal, [])

/-- Sender during an outage: every send raises `MessageDeliveryFailure`. -/
def sendAllFail : Sender := fun _ => (SendOutcome.deliveryFailure, [])

/-- Sender after recovery: every send succeeds. -/
def sendAllOk : Sender := fun _ => (SendOutcome.success, [])

/-- Failing sender whose completion path enqueues `wA1` and `wA2`. -/
def sendFailWithArrivals : Sender := fun _ =>
  (SendOutcome.deliveryFailure, [wA1, wA2])

/-- Publisher under `default` policy with two pending batches. -/
def pubDefaultW : Publisher := ⟨"default", 1024, false, none, [wB1, wB2]⟩

/-- Publisher under `queue` policy, capacity 1, with two pending batches. -/
def pubQueueW : Publisher := ⟨"queue", 1, false, some 1, [wB1, wB2]⟩

/-- Publisher under `drop` policy with two pending batches. -/
def pubDropW : Publisher := ⟨"drop", 1024, false, some 1, [wB1, wB2]⟩

/-- Publisher under `queue` policy, unbounded queue, one pending batch. -/
def pubQueueArr : Publisher := ⟨"queue", 0, false, some 1, [wB1]⟩

/-- Publisher under `queue` policy, capacity 1, one pending batch. -/
def pubQueueEvict : Publisher := ⟨"queue", 1, false, some 1, [wB1]⟩

/-! ### Claim theorems -/

/-- C1 counterexample: under the `default` policy, after a
`MessageDeliveryFailure` on `wB2`, the failure does propagate, but the queue
does NOT still contain the failing batch: `flush` emptied `local_queue`
before `_process_queue` ran and the exception skipped the re-assignment, so
the working set is gone. -/
theorem C1_counterexample :
    (flush sendOkThenFail pubDefaultW).err = some PubError.deliveryFailure ∧
    (flush sendOkThenFail pubDefaultW).pub.local_queue = [] ∧
    wB2 ∉ (flush sendOkThenFail pubDefaultW).pub.local_queue := by
  decide

/-- C1 (amended): under the `default` policy, when the Sender raises
`MessageDeliveryFailure` for some batch during `flush()`, the failure
propagates to the caller and the batches sent before the failure are the
ones removed, but the failing batch and the later batches of the working set
are NOT retained: the queue afterwards holds exactly the batches enqueued
during the flush itself. -/
theorem C1_default_failure_discards_working_set (send : Sender) (p : Publisher)
    (pre : List Batch) (b : Batch) (post : List Batch)
    (hpol : p.policy = "default")
    (hq : p.local_queue = pre ++ b :: post)
    (hpre : ∀ x ∈ pre, (send x).1 = SendOutcome.success)
    (hb : (send b).1 = SendOutcome.deliveryFailure) :
    (flush send p).err = some PubError.deliveryFailure ∧
    (flush send p).sent = pre ∧
    (flush send p).pub.local_queue = arrivalsOf send (pre ++ [b]) := by
  have hproc : processQueue send p.policy p.local_queue =
      ⟨[], pre, arrivalsOf send (pre ++ [b]), some PubError.deliveryFailure⟩ := by
    rw [hq, hpol, processQueue_first_fail "default" post hpre hb,
        if_neg (by decide : ¬ ("default" = "queue")),
        if_neg (by decide : ¬ ("default" = "queue" ∨ "default" = "drop"))]
  rw [flush_eq_of_err (by rw [hproc])]
  exact ⟨rfl, by rw [hproc], by rw [hproc]⟩

/-- C1 witness: the amended theorem applied to a concrete two-batch queue
whose second send fails. -/
theorem C1_default_failure_discards_working_set_witness :
    (flush sendOkThenFail pubDefaultW).err = some PubError.deliveryFailure ∧
    (flush sendOkThenFail pubDefaultW).sent = [wB1] ∧
    (flush sendOkThenFail pubDefaultW).pub.local_queue =
      arrivalsOf sendOkThenFail ([wB1] ++ [wB2]) :=
  C1_default_failure_discards_working_set sendOkThenFail pubDefaultW
    [wB1] wB2 [] (by decide) (by decide) (by decide) (by decide)

/-- C2 counterexample: a non-delivery exception on `wB2` propagates, but the
queue state IS modified by the failed flush: the unsent batch `wB2` is no
longer in the queue afterwards. -/
theorem C2_counterexample :
    (flush sendOkThenFatal pubDefaultW).err = some PubError.fatal ∧
    (flush sendOkThenFatal pubDefaultW).pub.local_queue = [] ∧
    wB2 ∉ (flush sendOkThenFatal pubDefaultW).pub.local_queue := by
  decide

/-- C2 (amended): for every policy, when the Sender raises an exception
other than `MessageDeliveryFailure` during `flush()`, the exception
propagates immediately to the caller, but the queue does not keep the unsent
working set: batches sent before the exception are removed, the rest of the
working set is discarded, and the queue afterwards holds exactly the batches
enqueued during the flush itself. -/
theorem C2_fatal_error_discards_working_set (send : Sender) (p : Publisher)
    (pre : List Batch) (b : Batch) (post : List Batch)
    (hq : p.local_queue = pre ++ b :: post)
    (hpre : ∀ x ∈ pre, (send x).1 = SendOutcome.success)
    (hb : (send b).1 = SendOutcome.fatal) :
    (flush send p).err = some PubError.fatal ∧
    (flush send p).sent = pre ∧
    (flush send p).pub.local_queue = arrivalsOf send (pre ++ [b]) := by
  have hproc : processQueue send p.policy p.local_queue =
      ⟨[], pre, arrivalsOf send (pre ++ [b]), some PubError.fatal⟩ := by
    rw [hq, processQueue_first_fatal p.policy post hpre hb]
  rw [flush_eq_of_err (by rw [hproc])]
  exact ⟨rfl, by rw [hproc], by rw [hproc]⟩

/-- C2 witness: the amended theorem applied to a concrete two-batch queue
whose second send raises a non-delivery exception. -/
theorem C2_fatal_error_discards_working_set_witness :
    (flush sendOkThenFatal pubDefaultW).err = some PubError.fatal ∧
    (flush sendOkThenFatal pubDefaultW).sent = [wB1] ∧
    (flush sendOkThenFatal pubDefaultW).pub.local_queue =
      arrivalsOf sendOkThenFatal ([wB1] ++ [wB2]) :=
  C2_fatal_error_discards_working_set sendOkThenFatal pubDefaultW
    [wB1] wB2 [] (by decide) (by decide) (by decide)

/-- C3: with per-category fan-out enabled, `publish_samples` builds first the
single base-destination batch holding all samples in original order, then
exactly one batch per distinct category present in the samples, addressed
`base ++ "." ++ category` and holding exactly that category's samples in
their original relative order; with fan-out disabled only the base batch is
built. -/
theorem C3_fanout_batches (topic : String) (ctx : Nat) (samples : List Meter) :
    builtBatches true topic ctx samples =
      ⟨ctx, topic, samples⟩ ::
        (categories samples).map
          (fun c => ⟨ctx, topic ++ "." ++ c, catFilter c samples⟩) ∧
    (categories samples).Nodup ∧
    (∀ c, c ∈ categories samples ↔ c ∈ samples.map (fun m => m.counter_name)) ∧
    builtBatches false topic ctx samples = [⟨ctx, topic, samples⟩] :=
  ⟨builtBatches_true_eq topic ctx samples, categories_nodup samples,
   fun c => categories_mem samples c, builtBatches_false_eq topic ctx samples⟩

/-- C9: with fan-out enabled, the per-category batches following the base
batch are addressed by the distinct categories in strictly ascending
code-point lexicographic order — a consequence of sorting the meters by
`counter_name` before grouping. -/
theorem C9_fanout_topics_sorted (topic : String) (ctx : Nat)
    (samples : List Meter) :
    (builtBatches true topic ctx samples).tail =
      (categories samples).map
        (fun c => ⟨ctx, topic ++ "." ++ c, catFilter c samples⟩) ∧
    List.Sorted sLt (categories samples) :=
  ⟨by rw [builtBatches_true_eq]; rfl, categories_sorted samples⟩

/-- C4: under the `queue` policy, on a `MessageDeliveryFailure` the failing
batch and every later batch of the working set are retained (followed by the
batches that arrived during the flush), no exception surfaces, and the
result is then capped at `max_queue_length` by dropping the oldest entries
from the front; when `max_queue_length` is positive the final queue length
is at most `max_queue_length`. -/
theorem C4_queue_policy_retains_and_caps (send : Sender) (p : Publisher)
    (pre : List Batch) (b : Batch) (post : List Batch)
    (hpol : p.policy = "queue")
    (hq : p.local_queue = pre ++ b :: post)
    (hpre : ∀ x ∈ pre, (send x).1 = SendOutcome.success)
    (hb : (send b).1 = SendOutcome.deliveryFailure) :
    (flush send p).err = none ∧
    (flush send p).sent = pre ∧
    (flush send p).pub.local_queue =
      (if p.max_queue_length <
            ((b :: post) ++ arrivalsOf send (pre ++ [b])).length ∧
          0 < p.max_queue_length
       then ((b :: post) ++ arrivalsOf send (pre ++ [b])).drop
            (((b :: post) ++ arrivalsOf send (pre ++ [b])).length -
              p.max_queue_length)
       else (b :: post) ++ arrivalsOf send (pre ++ [b])) ∧
    (0 < p.max_queue_length →
      (flush send p).pub.local_queue.length ≤ p.max_queue_length) := by
  have hproc : processQueue send p.policy p.local_queue =
      ⟨b :: post, pre, arrivalsOf send (pre ++ [b]), none⟩ := by
    rw [hq, hpol, processQueue_first_fail "queue" post hpre hb,
        if_pos rfl, if_pos (Or.inl rfl)]
  have hqueue : (flush send p).pub.local_queue =
      checkQueueLength p.max_queue_length
        ((b :: post) ++ arrivalsOf send (pre ++ [b])) := by
    rw [flush_eq_of_ok (by rw [hproc]), hproc, hpol, if_pos rfl]
  refine ⟨?_, ?_, ?_, ?_⟩
  · rw [flush_eq_of_ok (by rw [hproc])]
  · rw [flush_eq_of_ok (by rw [hproc]), hproc]
  · rw [hqueue, checkQueueLength]
  · intro hpos
    rw [hqueue]
    exact checkQueueLength_length_le _ hpos

/-- C4 witness: queue policy with capacity 1 and a failure on the first of
two batches: both are retained, then the oldest is evicted, leaving a queue
of length 1. -/
theorem C4_queue_policy_retains_and_caps_witness :
    (flush sendAllFail pubQueueW).err = none ∧
    (flush sendAllFail pubQueueW).sent = [] ∧
    (flush sendAllFail pubQueueW).pub.local_queue =
      (if pubQueueW.max_queue_length <
            ((wB1 :: [wB2]) ++ arrivalsOf sendAllFail ([] ++ [wB1])).length ∧
          0 < pubQueueW.max_queue_length
       then ((wB1 :: [wB2]) ++ arrivalsOf sendAllFail ([] ++ [wB1])).drop
            (((wB1 :: [wB2]) ++ arrivalsOf sendAllFail ([] ++ [wB1])).length -
              pubQueueW.max_queue_length)
       else (wB1 :: [wB2]) ++ arrivalsOf sendAllFail ([] ++ [wB1])) ∧
    (0 < pubQueueW.max_queue_length →
      (flush sendAllFail pubQueueW).pub.local_queue.length ≤
        pubQueueW.max_queue_length) :=
  C4_queue_policy_retains_and_caps sendAllFail pubQueueW [] wB1 [wB2]
    (by decide) (by decide) (by decide) (by decide)

/-- C5: under the `drop` policy, on a `MessageDeliveryFailure` the failing
batch and every later batch of the working set are discarded: with no
re-entrant publishes the queue is empty afterwards, no exception surfaces,
and any subsequent flush sends nothing. -/
theorem C5_drop_policy_discards (send : Sender) (p : Publisher)
    (pre : List Batch) (b : Batch) (post : List Batch)
    (hpol : p.policy = "drop")
    (hq : p.local_queue = pre ++ b :: post)
    (hpre : ∀ x ∈ pre, (send x).1 = SendOutcome.success)
    (hb : (send b).1 = SendOutcome.deliveryFailure)
    (hnoarr : ∀ x, (send x).2 = []) :
    (flush send p).err = none ∧
    (flush send p).sent = pre ∧
    (flush send p).pub.local_queue = [] ∧
    (∀ send2 : Sender, (flush send2 (flush send p).pub).sent = []) := by
  have hproc : processQueue send p.policy p.local_queue =
      ⟨[], pre, [], none⟩ := by
    rw [hq, hpol, processQueue_first_fail "drop" post hpre hb,
        if_neg (by decide : ¬ ("drop" = "queue")),
        if_pos (Or.inr rfl), arrivalsOf_eq_nil hnoarr]
  have hqueue : (flush send p).pub.local_queue = [] := by
    rw [flush_eq_of_ok (by rw [hproc]), hproc, hpol,
        if_neg (by decide : ¬ ("drop" = "queue"))]
    rfl
  refine ⟨?_, ?_, hqueue, ?_⟩
  · rw [flush_eq_of_ok (by rw [hproc])]
  · rw [flush_eq_of_ok (by rw [hproc]), hproc]
  · intro send2
    exact (flush_on_empty_queue send2 _ hqueue).1

/-- C5 witness: drop policy with a failure on the first of two batches:
everything is discarded, no error surfaces, and a later all-accepting flush
sends nothing. -/
theorem C5_drop_policy_discards_witness :
    (flush sendAllFail pubDropW).err = none ∧
    (flush sendAllFail pubDropW).sent = [] ∧
    (flush sendAllFail pubDropW).pub.local_queue = [] ∧
    (∀ send2 : Sender, (flush send2 (flush sendAllFail pubDropW).pub).sent = []) :=
  C5_drop_policy_discards sendAllFail pubDropW [] wB1 [wB2]
    (by decide) (by decide) (by decide) (by decide) (fun _ => rfl)

/-- C6: under the `queue` policy, if N single-batch publishes run while every
send raises `MessageDeliveryFailure`, and `max_queue_length` is at least N
(or zero, i.e. effectively unbounded for this run), the queue afterwards
holds all N batches in enqueue order; a later flush with an all-accepting
sender delivers exactly those batches in that order and leaves the queue
empty with no error.  In general, the batches a flush delivers form a prefix
of the processed queue, so successes are observed in enqueue order. -/
theorem C6_queue_policy_fifo_delivery (topic : String) (p : Publisher)
    (jobs : List (Nat × List Meter)) (sendF sendOk : Sender)
    (hpol : p.policy = "queue")
    (hpmt : p.per_meter_topic = false)
    (hq0 : p.local_queue = [])
    (hF : ∀ b, sendF b = (SendOutcome.deliveryFailure, []))
    (hOk : ∀ b, sendOk b = (SendOutcome.success, []))
    (hcap : p.max_queue_length = 0 ∨ jobs.length ≤ p.max_queue_length) :
    (runPublishes sendF topic p jobs).local_queue =
      jobs.map (fun j => ⟨j.1, topic, j.2⟩) ∧
    (flush sendOk (runPublishes sendF topic p jobs)).sent =
      jobs.map (fun j => ⟨j.1, topic, j.2⟩) ∧
    (flush sendOk (runPublishes sendF topic p jobs)).pub.local_queue = [] ∧
    (flush sendOk (runPublishes sendF topic p jobs)).err = none ∧
    (∀ (send : Sender) (pol : String) (q : List Batch),
      (processQueue send pol q).sent <+: q) := by
  have hrun : runPublishes sendF topic p jobs =
      { p with local_queue :=
          p.local_queue ++ jobs.map (fun j => ⟨j.1, topic, j.2⟩) } := by
    refine runPublishes_fail_invariant topic sendF hF jobs p hpol hpmt ?_
    rcases hcap with h0 | hle
    · exact Or.inl h0
    · exact Or.inr (by rw [hq0]; simpa using hle)
  have hlq : (runPublishes sendF topic p jobs).local_queue =
      jobs.map (fun j => ⟨j.1, topic, j.2⟩) := by
    rw [hrun]
    simp [hq0]
  set P := runPublishes sendF topic p jobs with hP
  have hPpol : P.policy = "queue" := by rw [hrun]; exact hpol
  have hOk1 : ∀ x ∈ P.local_queue, (sendOk x).1 = SendOutcome.success := by
    intro x _
    rw [hOk x]
  have hproc : processQueue sendOk P.policy P.local_queue =
      ⟨[], jobs.map (fun j => ⟨j.1, topic, j.2⟩), [], none⟩ := by
    rw [processQueue_all_ok P.policy hOk1, hlq,
        arrivalsOf_eq_nil (fun x => by rw [hOk x])]
  refine ⟨hlq, ?_, ?_, ?_, ?_⟩
  · rw [flush_eq_of_ok (by rw [hproc]), hproc]
  · rw [flush_eq_of_ok (by rw [hproc]), hproc, hPpol, if_pos rfl]
    show checkQueueLength P.max_queue_length ([] ++ []) = []
    rw [checkQueueLength_noop (Or.inr (by simp))]
    rfl
  · rw [flush_eq_of_ok (by rw [hproc])]
  · exact fun send pol q => processQueue_sent_isPrefix send pol q

/-- C6 witness: two publishes during an outage against a capacity-10 queue
publisher; both batches are retained in order and a recovery flush delivers
both in order. -/
theorem C6_queue_policy_fifo_delivery_witness :
    (runPublishes sendAllFail "metering" ⟨"queue", 10, false, some 1, []⟩
        [(1, [mCpu]), (2, [mDisk])]).local_queue =
      [(1, [mCpu]), (2, [mDisk])].map
        (fun j => (⟨j.1, "metering", j.2⟩ : Batch)) ∧
    (flush sendAllOk (runPublishes sendAllFail "metering"
        ⟨"queue", 10, false, some 1, []⟩ [(1, [mCpu]), (2, [mDisk])])).sent =
      [(1, [mCpu]), (2, [mDisk])].map
        (fun j => (⟨j.1, "metering", j.2⟩ : Batch)) ∧
    (flush sendAllOk (runPublishes sendAllFail "metering"
        ⟨"queue", 10, false, some 1, []⟩
        [(1, [mCpu]), (2, [mDisk])])).pub.local_queue = [] ∧
    (flush sendAllOk (runPublishes sendAllFail "metering"
        ⟨"queue", 10, false, some 1, []⟩ [(1, [mCpu]), (2, [mDisk])])).err =
      none ∧
    (∀ (send : Sender) (pol : String) (q : List Batch),
      (processQueue send pol q).sent <+: q) :=
  C6_queue_policy_fifo_delivery "metering" ⟨"queue", 10, false, some 1, []⟩
    [(1, [mCpu]), (2, [mDisk])] sendAllFail sendAllOk
    (by decide) (by decide) (by decide) (fun _ => rfl) (fun _ => rfl)
    (by decide)

/-- C7 counterexample: under the `queue` policy with `max_queue_length = 1`,
a failing send whose completion path enqueues two batches makes the length
cap evict `wB1` and the first arrival `wA1`: `wA1` was enqueued during the
flush, yet afterwards it is neither in the queue nor was it ever sent — it
is lost, contradicting the claim as stated. -/
theorem C7_counterexample :
    (flush sendFailWithArrivals pubQueueEvict).pub.local_queue = [wA2] ∧
    wA1 ∉ (flush sendFailWithArrivals pubQueueEvict).pub.local_queue ∧
    (flush sendFailWithArrivals pubQueueEvict).sent = [] := by
  decide

/-- C7 (amended): batches enqueued by the Sender's completion path while
`flush()` is in progress are never sent by that flush and are all present at
the tail of the reconciled queue, in arrival order, after the retained
working-set remainder — provided the `queue`-policy length cap does not bite
(for other policies, unconditionally).  Precisely: when every send succeeds,
the final queue is exactly the arrivals of the whole working set and exactly
the working set was sent; when the first non-success occurs at batch `b`
after a successful prefix `pre`, exactly `pre` was sent and the final queue
is the retained remainder (`b :: post` for a `MessageDeliveryFailure` under
the `queue` policy, nothing otherwise) followed by all arrivals of the
attempted sends `pre ++ [b]`, in arrival order.  When the cap does bite,
oldest-first eviction can drop arrived batches (see the counterexample). -/
theorem C7_reentrant_arrivals_preserved (send : Sender) (p : Publisher)
    (hcap : p.policy = "queue" →
      p.max_queue_length = 0 ∨
        p.local_queue.length + (arrivalsOf send p.local_queue).length ≤
          p.max_queue_length) :
    ((∀ x ∈ p.local_queue, (send x).1 = SendOutcome.success) →
      (flush send p).pub.local_queue = arrivalsOf send p.local_queue ∧
      (flush send p).sent = p.local_queue) ∧
    (∀ pre b post,
      p.local_queue = pre ++ b :: post →
      (∀ x ∈ pre, (send x).1 = SendOutcome.success) →
      (send b).1 ≠ SendOutcome.success →
      (flush send p).pub.local_queue =
        (if (send b).1 = SendOutcome.deliveryFailure ∧ p.policy = "queue"
         then b :: post else []) ++ arrivalsOf send (pre ++ [b]) ∧
      (flush send p).sent = pre) := by
  constructor
  · intro hok
    have hproc : processQueue send p.policy p.local_queue =
        ⟨[], p.local_queue, arrivalsOf send p.local_queue, none⟩ :=
      processQueue_all_ok p.policy hok
    refine ⟨?_, ?_⟩
    · rw [flush_eq_of_ok (by rw [hproc]), hproc]
      by_cases hpq : p.policy = "queue"
      · rw [if_pos hpq]
        show checkQueueLength p.max_queue_length
            ([] ++ arrivalsOf send p.local_queue) =
          arrivalsOf send p.local_queue
        rw [List.nil_append]
        refine checkQueueLength_noop ?_
        rcases hcap hpq with h0 | hle
        · exact Or.inl h0
        · exact Or.inr (by omega)
      · rw [if_neg hpq]
        rfl
    · rw [flush_eq_of_ok (by rw [hproc]), hproc]
  · intro pre b post hq hpre hb
    cases hsb : (send b).1 with
    | success => exact absurd hsb hb
    | deliveryFailure =>
      by_cases hpq : p.policy = "queue"
      · have hproc : processQueue send p.policy p.local_queue =
            ⟨b :: post, pre, arrivalsOf send (pre ++ [b]), none⟩ := by
          rw [hq, processQueue_first_fail p.policy post hpre hsb,
              if_pos hpq, if_pos (Or.inl hpq)]
        refine ⟨?_, ?_⟩
        · rw [flush_eq_of_ok (by rw [hproc]), hproc, if_pos hpq,
              if_pos ⟨rfl, hpq⟩]
          show checkQueueLength p.max_queue_length
              ((b :: post) ++ arrivalsOf send (pre ++ [b])) =
            (b :: post) ++ arrivalsOf send (pre ++ [b])
          refine checkQueueLength_noop ?_
          rcases hcap hpq with h0 | hle
          · exact Or.inl h0
          · refine Or.inr ?_
            have hsplitq : p.local_queue = (pre ++ [b]) ++ post := by
              rw [hq, List.append_assoc, List.singleton_append]
            have harr : (arrivalsOf send p.local_queue).length =
                (arrivalsOf send (pre ++ [b])).length +
                  (arrivalsOf send post).length := by
              rw [hsplitq, arrivalsOf_append, List.length_append]
            have hlen : p.local_queue.length =
                (pre ++ [b]).length + post.length := by
              rw [hsplitq, List.length_append]
            have he : (pre ++ [b]).length = pre.length + 1 := by simp
            rw [List.length_append, List.length_cons]
            omega
        · rw [flush_eq_of_ok (by rw [hproc]), hproc]
      · by_cases hpd : p.policy = "drop"
        · have hproc : processQueue send p.policy p.local_queue =
              ⟨[], pre, arrivalsOf send (pre ++ [b]), none⟩ := by
            rw [hq, processQueue_first_fail p.policy post hpre hsb,
                if_neg hpq, if_pos (Or.inr hpd)]
          refine ⟨?_, ?_⟩
          · rw [flush_eq_of_ok (by rw [hproc]), hproc, if_neg hpq,
                if_neg (fun hc => hpq hc.2)]
          · rw [flush_eq_of_ok (by rw [hproc]), hproc]
        · have hproc : processQueue send p.policy p.local_queue =
              ⟨[], pre, arrivalsOf send (pre ++ [b]),
               some PubError.deliveryFailure⟩ := by
            rw [hq, processQueue_first_fail p.policy post hpre hsb,
                if_neg hpq,
                if_neg (fun hc => hc.elim hpq hpd)]
          refine ⟨?_, ?_⟩
          · rw [flush_eq_of_err (by rw [hproc]), hproc,
                if_neg (fun hc => hpq hc.2)]
            rfl
          · rw [flush_eq_of_err (by rw [hproc]), hproc]
    | fatal =>
      have hproc : processQueue send p.policy p.local_queue =
          ⟨[], pre, arrivalsOf send (pre ++ [b]), some PubError.fatal⟩ := by
        rw [hq, processQueue_first_fatal p.policy post hpre hsb]
      refine ⟨?_, ?_⟩
      · rw [flush_eq_of_err (by rw [hproc]), hproc,
            if_neg (by simp [hsb])]
        rfl
      · rw [flush_eq_of_err (by rw [hproc]), hproc]

/-- C7 witness: the amended theorem applied to an unbounded queue-policy
publisher with working set `[wB1]` whose failing send enqueues `wA1` and
`wA2`: nothing is sent and the final queue is `wB1` followed by both
arrivals in arrival order. -/
theorem C7_reentrant_arrivals_preserved_witness :
    (flush sendFailWithArrivals pubQueueArr).pub.local_queue =
      (if (sendFailWithArrivals wB1).1 = SendOutcome.deliveryFailure ∧
          pubQueueArr.policy = "queue"
       then wB1 :: [] else []) ++
        arrivalsOf sendFailWithArrivals ([] ++ [wB1]) ∧
    (flush sendFailWithArrivals pubQueueArr).sent = [] :=
  (C7_reentrant_arrivals_preserved sendFailWithArrivals pubQueueArr
      (fun _ => Or.inl rfl)).2
    [] wB1 [] (by decide) (by decide) (by decide)

/-- C8: constructing with an unknown policy string raises nothing, coerces
the effective policy to `default` and records exactly one warning
diagnostic; a recognized policy is kept and records no warning. -/
theorem C8_policy_coercion (p : String) (maxQ : Nat) (pmt : Bool) :
    ((p = "default" ∨ p = "queue" ∨ p = "drop") →
      (mkPublisher p maxQ pmt).1.policy = p ∧ (mkPublisher p maxQ pmt).2 = 0) ∧
    (¬(p = "default" ∨ p = "queue" ∨ p = "drop") →
      (mkPublisher p maxQ pmt).1.policy = "default" ∧
        (mkPublisher p maxQ pmt).2 = 1) := by
  constructor
  · intro h
    simp [mkPublisher, h]
  · intro h
    simp [mkPublisher, h]

/-- C8 witness: `policy="bogus"` coerces to `default` with one warning;
`policy="queue"` is kept with no warning. -/
theorem C8_policy_coercion_witness :
    ((mkPublisher "bogus" 1024 false).1.policy = "default" ∧
      (mkPublisher "bogus" 1024 false).2 = 1) ∧
    ((mkPublisher "queue" 1024 false).1.policy = "queue" ∧
      (mkPublisher "queue" 1024 false).2 = 0) :=
  ⟨(C8_policy_coercion "bogus" 1024 false).2 (by decide),
   (C8_policy_coercion "queue" 1024 false).1 (by decide)⟩

/-- C10: construction fixes `retry` from the effective policy — `some 1`
exactly when the effective policy is `queue` or `drop`, `none` otherwise
(and the effective policy is always one of the three, so `none` means
`default`) — and neither `flush` nor `publish_samples` ever changes it. -/
theorem C10_retry_from_policy (p : String) (maxQ : Nat) (pmt : Bool)
    (send : Sender) (topic : String) (ctx : Nat) (samples : List Meter)
    (pub : Publisher) :
    ((mkPublisher p maxQ pmt).1.retry =
      (if (mkPublisher p maxQ pmt).1.policy = "queue" ∨
          (mkPublisher p maxQ pmt).1.policy = "drop"
       then some 1 else none)) ∧
    ((mkPublisher p maxQ pmt).1.policy = "default" ∨
      (mkPublisher p maxQ pmt).1.policy = "queue" ∨
      (mkPublisher p maxQ pmt).1.policy = "drop") ∧
    (flush send pub).pub.retry = pub.retry ∧
    (publish_samples send topic ctx samples pub).pub.retry = pub.retry := by
  refine ⟨rfl, ?_, (flush_preserves_config send pub).2.2.2, ?_⟩
  · by_cases h : p = "default" ∨ p = "queue" ∨ p = "drop"
    · have : (mkPublisher p maxQ pmt).1.policy = p := by simp [mkPublisher, h]
      rw [this]
      exact h
    · have : (mkPublisher p maxQ pmt).1.policy = "default" := by
        simp [mkPublisher, h]
      rw [this]
      exact Or.inl rfl
  · rw [publish_samples]
    exact (flush_preserves_config send _).2.2.2
